import Mathlib

/-!
Shallow embedding of `src/morphoclass/console/cmd_predict.py`
(the `morphoclass predict-after-extraction` CLI command) and proofs about it.

The file embeds the command handler `predict` and its three dispatch
routines `predict_gnn`, `predict_cnn`, `predict_xgb`.  External
collaborators of the script (the `MorphologyData` / `MorphologyDataset`
classes, `morphoclass.models`, the torch / numpy / xgboost libraries and
the filesystem) are modelled abstractly: pure functions standing for their
observable behaviour are bundled in an `Env` record, and filesystem /
console effects are made explicit in the return value of `predict`.
-/

namespace Morphoclass

/-! ## Python string primitives used by the script -/

/-- Does `needle` occur as a leading segment of `l`?  Used to embed
Python's substring test. -/
def beginsWith : List Char → List Char → Bool
  | [], _ => true
  | _ :: _, [] => false
  | a :: as, b :: bs => a = b && beginsWith as bs

/-- Does `needle` occur as a contiguous subsequence of `l`?  Embeds
Python's `needle in haystack` test on strings (`cmd_predict.py`
lines 128, 131, 134). -/
def containsSeq (needle : List Char) : List Char → Bool
  | [] => needle.isEmpty
  | c :: t => beginsWith needle (c :: t) || containsSeq needle t

/-- Python `needle in hay` for strings. -/
def strContains (hay needle : String) : Bool :=
  containsSeq needle.data hay.data

/-- Does `l` end with the segment `suf`? -/
def endsWithSeq (suf l : List Char) : Bool :=
  beginsWith suf.reverse l.reverse

/-- A file name matches the glob pattern `"*.features"` used at
`cmd_predict.py` line 122.  `fnmatch` translates `*.features` to
`.*\.features`, i.e. the name has to end in `.features` (with an
arbitrary, possibly empty, prefix); `pathlib.Path.glob` does not
special-case hidden files. -/
def matchesFeaturesGlob (name : String) : Bool :=
  endsWithSeq ".features".data name.data

/-- Python `str.strip()` (no argument): remove leading and trailing
whitespace. -/
def pyStrip (s : String) : String :=
  ⟨((s.data.dropWhile Char.isWhitespace).reverse.dropWhile Char.isWhitespace).reverse⟩

/-- Python `str.lower()` (the responses compared against `"y"` are
ASCII, where `Char.toLower` agrees with Python). -/
def pyLower (s : String) : String :=
  ⟨s.data.map Char.toLower⟩

/-- The characters after the last `'.'` of the list (the whole list when
no `'.'` occurs).  Embeds Python's `s.rpartition(".")[2]` used at
`cmd_predict.py` lines 181-183 and 212-214. -/
def afterLastDotChars : List Char → List Char
  | [] => []
  | c :: cs =>
    if '.' ∈ cs then afterLastDotChars cs
    else if c = '.' then cs
    else c :: cs

/-- Python `s.rpartition(".")[2]`: the part of `s` after its last dot. -/
def afterLastDot (s : String) : String :=
  ⟨afterLastDotChars s.data⟩

/-- Lexicographic comparison of code-point sequences: the order in which
Python's `sorted` arranges the globbed paths (all paths live in the same
directory, so `pathlib`'s part-wise comparison reduces to this). -/
def charListLe : List Char → List Char → Bool
  | [], _ => true
  | _ :: _, [] => false
  | a :: as, b :: bs => if a = b then charListLe as bs else decide (a < b)

/-- Path comparison used for `sorted(features_dir.glob("*.features"))`. -/
def pathLe (a b : String) : Bool :=
  charListLe a.data b.data

/-- Insert a path into a list that is sorted by `pathLe`, keeping it
sorted. -/
def insertSorted (x : String) : List String → List String
  | [] => [x]
  | y :: ys => if pathLe x y then x :: y :: ys else y :: insertSorted x ys

/-- Python's `sorted` on the globbed paths, as an insertion sort by
`pathLe`.  Since `pathLe` is a total lexicographic order on code-point
sequences, the result is the unique `pathLe`-sorted rearrangement, the
list `sorted` returns. -/
def sortPaths : List String → List String
  | [] => []
  | x :: xs => insertSorted x (sortPaths xs)

/-! ## Data model

Modelled external collaborators.  `MorphologyData`, `MorphologyDataset`
and `morphoclass.models` belong to the repository but are not part of the
supplied source, so they are modelled from the spec. -/

/-- Modelled from the spec: a loaded `MorphologyData` sample (the class
lives in `morphoclass.data.morphology_data`, outside the supplied
source).  The command only reads its `path` (line 148) and its `image`
tensor (lines 219, 245); the tensor is modelled by its flattened entry
list. -/
structure MorphologyData where
  path : String
  image : List Int
deriving DecidableEq, Repr

/-- Modelled from the spec: `MorphologyDataset(data)` (class outside the
supplied source).  The command reads `dataset.data` (line 147), iterates
over the samples (lines 187, 219, 245) and reads `dataset.y_to_label`
(line 149); the label translation is modelled as a total map from
predicted class to label string. -/
structure MorphologyDataset where
  data : List MorphologyData
  y_to_label : Nat → String

/-- Modelled from the spec: a torch model obtained from
`morphoclass.models` (outside the supplied source).  `forward` is the
model applied to a whole sample (`model(sample)`, line 187, one row of
logits per sample); `forwardImage` is the model applied to the sample's
image (`model(sample.image).detach().numpy()`, line 219, a matrix of
logit rows). -/
structure TorchModel where
  forward : MorphologyData → List Int
  forwardImage : List Int → List (List Int)

/-- The checkpoint dictionary loaded by `torch.load` (line 113): the
fields read by the command are `checkpoint["model_class"]`,
`checkpoint["model_params"]` and `checkpoint["all"]["model"]`.  The
parameter dictionary and the serialized weights are opaque to the
script and are modelled by a keyword list and an abstract identifier. -/
structure Checkpoint where
  model_class : String
  model_params : List (String × Int)
  all_model : Nat
deriving DecidableEq, Repr

/-- Modelled from the spec: the abstract behaviour of the external
collaborators, bundled.  `load` is `MorphologyData.load` (line 123),
`yToLabel` the `y_to_label` map of `MorphologyDataset(data)`, `mkModel`
the composite `getattr(morphoclass.models, name)(**params)` followed by
`load_state_dict(weights)` (lines 181-185, 212-216), and
`xgbModelPredict` the `model.predict` call of the deserialized XGBoost
model on a matrix (line 245). -/
structure Env where
  load : String → MorphologyData
  yToLabel : List MorphologyData → Nat → String
  mkModel : String → List (String × Int) → Nat → TorchModel
  xgbModelPredict : Nat → List (List Int) → List Nat

/-! ## numpy fragments used by the script -/

/-- A numpy array as far as the script observes it: either a 1-D array
(as produced by `np.array([])`) or a 2-D array given by its rows.  The
embedding assumes the model's logit rows all have the class count as
their common length, so `np.array` on a non-empty list of rows builds a
2-D array. -/
inductive NpArr where
  | oneD (xs : List Int)
  | twoD (rows : List (List Int))
deriving DecidableEq, Repr

/-- `np.array` applied to a list of logit rows (line 189): the empty
list yields the 1-D empty array of shape `(0,)`, a non-empty list a 2-D
array. -/
def npArrayOfRows (rows : List (List Int)) : NpArr :=
  match rows with
  | [] => .oneD []
  | _ => .twoD rows

/-- Running maximum of a logit row together with its index; ties keep
the earlier index, as `np.argmax` does. -/
def argmaxFold : List Int → Option (Int × Nat)
  | [] => none
  | x :: xs =>
    match argmaxFold xs with
    | none => some (x, 0)
    | some (v, i) => if v > x then some (v, i + 1) else some (x, 0)

/-- `np.argmax` of a single row: the first index of the maximum entry,
`none` on an empty row (numpy raises on an empty sequence). -/
def rowArgmax (row : List Int) : Option Nat :=
  (argmaxFold row).map Prod.snd

/-- Apply a fallible function to every element, failing as soon as one
application fails (a Python loop or comprehension in which an iteration
may raise). -/
def mapOrNone (f : α → Option β) : List α → Option (List β)
  | [] => some []
  | x :: xs =>
    match f x, mapOrNone f xs with
    | some y, some ys => some (y :: ys)
    | _, _ => none

/-- `logits.argmax(axis=1)` (lines 130, 133): on a 1-D array numpy
raises an `AxisError` (axis 1 is out of bounds), on a 2-D array it
returns the row-wise first maximum indices (raising if a row is
empty). -/
def argmaxAxis1 : NpArr → Option (List Nat)
  | .oneD _ => none
  | .twoD rows => mapOrNone rowArgmax rows

/-- `np.concatenate` of per-sample logit matrices guarded by the length
test of lines 220-223: a non-empty list is concatenated along axis 0
into one 2-D array, the empty list becomes `np.array([])`, the 1-D
empty array. -/
def npConcatOrEmpty (mats : List (List (List Int))) : NpArr :=
  if mats.length > 0 then .twoD mats.flatten else .oneD []

/-! ## The three prediction routines -/

/-- The model reconstructed from the checkpoint (lines 181-185 and
212-216): the attribute of `morphoclass.models` named by the part of
`model_class` after its last dot, instantiated with `model_params` and
loaded with the weights `checkpoint["all"]["model"]`. -/
def modelOf (env : Env) (ckpt : Checkpoint) : TorchModel :=
  env.mkModel (afterLastDot ckpt.model_class) ckpt.model_params ckpt.all_model

/-- `predict_gnn` (lines 162-189): apply the reconstructed model to each
sample and collect the logit rows with `np.array`. -/
def predict_gnn (env : Env) (dataset : MorphologyDataset) (ckpt : Checkpoint) : NpArr :=
  npArrayOfRows (dataset.data.map (modelOf env ckpt).forward)

/-- `predict_cnn` (lines 192-225): apply the reconstructed model to each
sample's image and concatenate the per-sample logit matrices. -/
def predict_cnn (env : Env) (dataset : MorphologyDataset) (ckpt : Checkpoint) : NpArr :=
  npConcatOrEmpty (dataset.data.map fun s => (modelOf env ckpt).forwardImage s.image)

/-- `sample.image.numpy().reshape(1, 10000)` (line 245): succeeds, as a
one-row matrix, exactly when the image holds 10000 entries; otherwise
numpy raises a reshape error. -/
def reshape1x10000 (img : List Int) : Option (List (List Int)) :=
  if img.length = 10000 then some [img] else none

/-- `predict_xgb` (lines 228-247): for each sample reshape the image to
`(1, 10000)`, run the deserialized model's `predict` and keep the first
entry of the returned prediction array; the first failing sample aborts
the comprehension. -/
def predict_xgb (env : Env) (dataset : MorphologyDataset) (ckpt : Checkpoint) :
    Option (List Nat) :=
  mapOrNone
    (fun s => (reshape1x10000 s.image).bind
      fun m => (env.xgbModelPredict ckpt.all_model m).head?)
    dataset.data

/-! ## The `predict` command -/

/-- The inputs of one run of `predict`: the three (resolved) path
arguments, the optional results name with the timestamp used for its
default, the state of the filesystem at the results path, the console
response to the overwrite prompt, and the names of the entries of the
features directory. -/
structure PredictInput where
  featuresDir : String
  checkpointFile : String
  outputDir : String
  resultsName : Option String
  timestamp : String
  resultsFileExists : Bool
  response : String
  dirEntries : List String
deriving DecidableEq, Repr

/-- The JSON report written at lines 152-157: the `"predictions"`
object (an insertion-ordered mapping, listed as pairs), the
`"checkpoint_path"` string and the `"model"` string. -/
structure Results where
  predictions : List (String × String)
  checkpoint_path : String
  model : String
deriving DecidableEq, Repr

/-- Which of the three prediction routines a run used. -/
inductive Routine
  | gnn
  | cnn
  | xgb
deriving DecidableEq, Repr

/-- The externally observable steps of a run of `predict`: loading the
checkpoint (line 113), loading the feature files (lines 121-124),
running one of the three routines (lines 128-135), and writing the
results file (lines 156-157). -/
inductive Effect where
  | loadCheckpoint
  | loadData (data : List MorphologyData)
  | compute (r : Routine) (data : List MorphologyData)
  | writeResults (path : String) (res : Results)
deriving DecidableEq, Repr

/-- How a run of `predict` ends: the early return of the overwrite
prompt (line 103), the early return for an unrecognized model class
(line 143), an uncaught library exception, or a written report. -/
inductive PredictResult where
  | stopped
  | notRecognized (modelClass : String)
  | runtimeError (msg : String)
  | written (res : Results)
deriving DecidableEq, Repr

/-- `results_name` after the default of lines 90-92. -/
def resultsFileName (inp : PredictInput) : String :=
  match inp.resultsName with
  | some n => n
  | none => "results_" ++ inp.timestamp

/-- `results_path = output_dir / (results_name + ".json")` (line 93). -/
def resultsPath (inp : PredictInput) : String :=
  inp.outputDir ++ "/" ++ resultsFileName inp ++ ".json"

/-- The early-return condition of lines 97-103: the results file exists
and the prompt response, stripped and lowercased, differs from `"y"`. -/
def stopCond (inp : PredictInput) : Bool :=
  inp.resultsFileExists && !(pyLower (pyStrip inp.response) == "y")

/-- `sorted(features_dir.glob("*.features"))` (line 122): the directory
entries matching the glob, turned into full paths and sorted. -/
def sortedFeaturePaths (inp : PredictInput) : List String :=
  sortPaths
    ((inp.dirEntries.filter matchesFeaturesGlob).map
      fun n => inp.featuresDir ++ "/" ++ n)

/-- The samples loaded at lines 121-123, in loading order. -/
def loadedData (env : Env) (inp : PredictInput) : List MorphologyData :=
  (sortedFeaturePaths inp).map env.load

/-- `MorphologyDataset(data)` (line 124). -/
def mkDataset (env : Env) (inp : PredictInput) : MorphologyDataset :=
  { data := loadedData env inp, y_to_label := env.yToLabel (loadedData env inp) }

/-- The export step of lines 145-157: pair each sample of
`dataset.data` with its prediction, record
`str(sample.path) ↦ dataset.y_to_label[sample_pred]`, and add the
checkpoint path and the model class string. -/
def exportResults (inp : PredictInput) (ckpt : Checkpoint)
    (dataset : MorphologyDataset) (preds : List Nat) : Results :=
  { predictions :=
      (dataset.data.zip preds).map fun sp => (sp.1.path, dataset.y_to_label sp.2)
    checkpoint_path := inp.checkpointFile
    model := ckpt.model_class }

/-- The place-holder message of the uncaught numpy error raised by
`argmax(axis=1)` on a 1-D array or on an empty row. -/
def axisErrorMsg : String :=
  "axis 1 is out of bounds for array of dimension 1"

/-- The place-holder message of the uncaught error raised in the XGB
branch by `reshape(1, 10000)` or by indexing an empty prediction
array. -/
def xgbErrorMsg : String :=
  "cannot reshape array to (1, 10000)"

/-- Tail of a branch of `predict`: on successfully computed predictions
the run exports the report and writes the results file (lines 145-157),
on a raised library error it aborts after the compute step. -/
def finishBranch (env : Env) (inp : PredictInput) (ckpt : Checkpoint)
    (r : Routine) (preds? : Option (List Nat)) (errMsg : String) :
    PredictResult × List Effect :=
  match preds? with
  | some preds =>
    (.written (exportResults inp ckpt (mkDataset env inp) preds),
      [.loadCheckpoint, .loadData (loadedData env inp),
        .compute r (loadedData env inp),
        .writeResults (resultsPath inp)
          (exportResults inp ckpt (mkDataset env inp) preds)])
  | none =>
    (.runtimeError errMsg,
      [.loadCheckpoint, .loadData (loadedData env inp),
        .compute r (loadedData env inp)])

/-- The command handler `predict` (lines 82-159): overwrite prompt,
checkpoint load, data load, three-way dispatch on substring tests of
`model_class` (lines 128-143), and export. -/
def predict (env : Env) (inp : PredictInput) (ckpt : Checkpoint) :
    PredictResult × List Effect :=
  if stopCond inp then (.stopped, [])
  else if strContains ckpt.model_class "ManNet" then
    finishBranch env inp ckpt .gnn
      (argmaxAxis1 (predict_gnn env (mkDataset env inp) ckpt)) axisErrorMsg
  else if strContains ckpt.model_class "CNN" then
    finishBranch env inp ckpt .cnn
      (argmaxAxis1 (predict_cnn env (mkDataset env inp) ckpt)) axisErrorMsg
  else if strContains ckpt.model_class "XGB" then
    finishBranch env inp ckpt .xgb
      (predict_xgb env (mkDataset env inp) ckpt) xgbErrorMsg
  else
    (.notRecognized ckpt.model_class,
      [.loadCheckpoint, .loadData (loadedData env inp)])

/-- The spec's description of the dispatch, written from its words: the
routine is selected by substring tests on the model class string, tried
in the order graph neural network (`"ManNet"`), convolutional network
(`"CNN"`), gradient-boosted trees (`"XGB"`), and no routine is selected
otherwise.  Compared against `predict` in the dispatch theorem. -/
def specRoutineFor (model_class : String) : Option Routine :=
  if strContains model_class "ManNet" then some .gnn
  else if strContains model_class "CNN" then some .cnn
  else if strContains model_class "XGB" then some .xgb
  else none

/-- The routines recorded in an effect trace, in order. -/
def computeTags (effs : List Effect) : List Routine :=
  effs.filterMap fun e =>
    match e with
    | .compute r _ => some r
    | _ => none

/-- `k` is the first index of a maximum entry of `row`: the entry at `k`
dominates every entry and strictly dominates every earlier entry. -/
def FirstArgmaxAt (row : List Int) (k : Nat) : Prop :=
  ∃ v : Int, row[k]? = some v ∧ (∀ (j : Nat) (y : Int), row[j]? = some y → y ≤ v) ∧
    ∀ (j : Nat) (y : Int), j < k → row[j]? = some y → y < v

/-! ## Concrete data for closed runs

A small environment, input and checkpoints used to evaluate the
development on closed runs of the command. -/

/-- A concrete behaviour for the external collaborators: every feature
file loads to a sample with image `[3, 1]`, labels are
`"label<class>"`, the torch model puts the maximal logit in column 1,
and the XGBoost model always predicts class 2. -/
def envW : Env :=
  { load := fun p => { path := p, image := [3, 1] }
    yToLabel := fun _ n => "label" ++ toString n
    mkModel := fun _ _ _ =>
      { forward := fun d => [d.image.headD 0, 5]
        forwardImage := fun img => [[img.headD 0, 7]] }
    xgbModelPredict := fun _ rows => rows.map fun _ => 2 }

/-- A concrete input: two feature files (listed out of order) and one
unrelated file, no pre-existing results file. -/
def inpW : PredictInput :=
  { featuresDir := "/feat", checkpointFile := "/ckpt.chk", outputDir := "/out",
    resultsName := some "res", timestamp := "2022", resultsFileExists := false,
    response := "", dirEntries := ["b.features", "a.features", "notes.txt"] }

/-- The same input with a features directory holding no `*.features`
file. -/
def inpEmptyW : PredictInput :=
  { inpW with dirEntries := ["notes.txt"] }

/-- The same input with an existing results file and a declining
response to the overwrite prompt. -/
def inpStopW : PredictInput :=
  { inpW with resultsFileExists := true, response := " No " }

/-- A GNN checkpoint. -/
def ckptGnnW : Checkpoint :=
  { model_class := "morphoclass.models.ManNet", model_params := [("n", 2)], all_model := 7 }

/-- A CNN checkpoint. -/
def ckptCnnW : Checkpoint :=
  { model_class := "morphoclass.models.CNNet", model_params := [("n", 2)], all_model := 7 }

/-- An XGB checkpoint. -/
def ckptXgbW : Checkpoint :=
  { model_class := "xgboost.XGBClassifier", model_params := [], all_model := 7 }

/-- A checkpoint whose model class matches none of the three substring
tests. -/
def ckptOtherW : Checkpoint :=
  { model_class := "sklearn.tree.DecisionTreeClassifier", model_params := [], all_model := 7 }

/-- A checkpoint whose model class contains both `"CNN"` and
`"ManNet"`: the dispatch order sends it to the GNN routine. -/
def ckptMixedW : Checkpoint :=
  { model_class := "morphoclass.models.CNNManNet", model_params := [], all_model := 7 }

/-- A dataset whose single sample has an image that cannot be reshaped
to `(1, 10000)`. -/
def dsBadW : MorphologyDataset :=
  { data := [{ path := "p", image := [1] }], y_to_label := fun _ => "l" }

/-- The report written by the closed CNN run of `envW`, `inpW`,
`ckptCnnW`. -/
def rCnnW : Results :=
  { predictions := [("/feat/a.features", "label1"), ("/feat/b.features", "label1")]
    checkpoint_path := "/ckpt.chk"
    model := "morphoclass.models.CNNet" }

/-- The effect trace of the closed CNN run of `envW`, `inpW`,
`ckptCnnW`. -/
def effsCnnW : List Effect :=
  [.loadCheckpoint,
    .loadData [{ path := "/feat/a.features", image := [3, 1] },
      { path := "/feat/b.features", image := [3, 1] }],
    .compute .cnn [{ path := "/feat/a.features", image := [3, 1] },
      { path := "/feat/b.features", image := [3, 1] }],
    .writeResults "/out/res.json" rCnnW]

/-! ## Helper lemmas -/

theorem mapOrNone_length {f : α → Option β} :
    ∀ {l : List α} {ys : List β}, mapOrNone f l = some ys → ys.length = l.length := by
  intro l
  induction l with
  | nil => intro ys h; simp [mapOrNone] at h; simp [← h]
  | cons x xs ih =>
    intro ys h
    simp only [mapOrNone] at h
    cases hfx : f x with
    | none => rw [hfx] at h; exact absurd h (by simp)
    | some y =>
      cases hrec : mapOrNone f xs with
      | none => rw [hfx, hrec] at h; exact absurd h (by simp)
      | some ys' =>
        rw [hfx, hrec] at h
        cases h
        simp [ih hrec]

theorem mapOrNone_getElem {f : α → Option β} :
    ∀ {l : List α} {ys : List β}, mapOrNone f l = some ys →
      ∀ (i : Nat) (x : α), l[i]? = some x → ys[i]? = f x := by
  intro l
  induction l with
  | nil => intro ys _ i x hx; simp at hx
  | cons a as ih =>
    intro ys h i x hx
    simp only [mapOrNone] at h
    cases hfa : f a with
    | none => rw [hfa] at h; exact absurd h (by simp)
    | some y =>
      cases hrec : mapOrNone f as with
      | none => rw [hfa, hrec] at h; exact absurd h (by simp)
      | some ys' =>
        rw [hfa, hrec] at h
        cases h
        cases i with
        | zero => simp at hx; subst hx; simp [hfa]
        | succ j => simp only [List.getElem?_cons_succ] at hx ⊢; exact ih hrec j x hx

theorem mapOrNone_eq_none {f : α → Option β} {x : α} :
    ∀ {l : List α}, x ∈ l → f x = none → mapOrNone f l = none := by
  intro l
  induction l with
  | nil => intro h; simp at h
  | cons a as ih =>
    intro hmem hfx
    simp only [mapOrNone]
    rcases List.mem_cons.1 hmem with rfl | hmem'
    · rw [hfx]
    · rw [ih hmem' hfx]
      cases f a <;> rfl

theorem mapOrNone_isSome {f : α → Option β} :
    ∀ {l : List α}, (∀ x ∈ l, (f x).isSome) → ∃ ys, mapOrNone f l = some ys := by
  intro l
  induction l with
  | nil => intro _; exact ⟨[], rfl⟩
  | cons a as ih =>
    intro h
    obtain ⟨y, hy⟩ := Option.isSome_iff_exists.1 (h a (List.mem_cons_self a as))
    obtain ⟨ys, hys⟩ := ih fun x hx => h x (List.mem_cons_of_mem a hx)
    exact ⟨y :: ys, by simp only [mapOrNone, hy, hys]⟩

theorem argmaxFold_eq_none : ∀ {l : List Int}, argmaxFold l = none → l = [] := by
  intro l h
  cases l with
  | nil => rfl
  | cons x xs =>
    exfalso
    simp only [argmaxFold] at h
    cases hrec : argmaxFold xs with
    | none => rw [hrec] at h; simp at h
    | some p =>
      obtain ⟨v, i⟩ := p
      rw [hrec] at h
      by_cases hv : v > x <;> simp [hv] at h

theorem argmaxFold_spec :
    ∀ {row : List Int} {v : Int} {i : Nat}, argmaxFold row = some (v, i) →
      row[i]? = some v ∧ (∀ (j : Nat) (y : Int), row[j]? = some y → y ≤ v) ∧
        ∀ (j : Nat) (y : Int), j < i → row[j]? = some y → y < v := by
  intro row
  induction row with
  | nil => intro v i h; simp [argmaxFold] at h
  | cons x xs ih =>
    intro v i h
    simp only [argmaxFold] at h
    split at h
    next hrec =>
      have hxs : xs = [] := argmaxFold_eq_none hrec
      subst hxs
      simp only [Option.some.injEq, Prod.mk.injEq] at h
      obtain ⟨rfl, rfl⟩ := h
      refine ⟨rfl, ?_, ?_⟩
      · intro j y hj
        cases j with
        | zero => simp at hj; omega
        | succ k => simp at hj
      · intro j y hj _; omega
    next v' i' hrec =>
      obtain ⟨hget, hle, hlt⟩ := ih hrec
      split at h
      next hv =>
        simp only [Option.some.injEq, Prod.mk.injEq] at h
        obtain ⟨rfl, rfl⟩ := h
        refine ⟨by simpa using hget, ?_, ?_⟩
        · intro j y hj
          cases j with
          | zero => simp at hj; omega
          | succ k => exact hle k y (by simpa using hj)
        · intro j y hj hget'
          cases j with
          | zero => simp at hget'; omega
          | succ k => exact hlt k y (by omega) (by simpa using hget')
      next hv =>
        simp only [Option.some.injEq, Prod.mk.injEq] at h
        obtain ⟨rfl, rfl⟩ := h
        push_neg at hv
        refine ⟨by simp, ?_, ?_⟩
        · intro j y hj
          cases j with
          | zero => simp at hj; omega
          | succ k =>
            have := hle k y (by simpa using hj)
            omega
        · intro j y hj _; omega

theorem rowArgmax_spec {row : List Int} {k : Nat} (h : rowArgmax row = some k) :
    FirstArgmaxAt row k := by
  simp only [rowArgmax, Option.map_eq_some'] at h
  obtain ⟨⟨v, i⟩, hfold, hk⟩ := h
  cases hk
  obtain ⟨hget, hle, hlt⟩ := argmaxFold_spec hfold
  exact ⟨v, hget, hle, hlt⟩

theorem beginsWith_iff :
    ∀ needle l : List Char, beginsWith needle l = true ↔ ∃ t, l = needle ++ t := by
  intro needle
  induction needle with
  | nil => intro l; simp [beginsWith]
  | cons a as ih =>
    intro l
    cases l with
    | nil => simp [beginsWith]
    | cons b bs =>
      simp only [beginsWith, Bool.and_eq_true, decide_eq_true_eq, ih bs]
      constructor
      · rintro ⟨rfl, t, rfl⟩; exact ⟨t, rfl⟩
      · rintro ⟨t, ht⟩
        injection ht with h1 h2
        exact ⟨h1.symm, t, h2⟩

theorem containsSeq_iff :
    ∀ (needle l : List Char),
      containsSeq needle l = true ↔ ∃ pre post, l = pre ++ needle ++ post := by
  intro needle l
  induction l with
  | nil =>
    simp only [containsSeq, List.isEmpty_iff]
    constructor
    · rintro rfl; exact ⟨[], [], rfl⟩
    · rintro ⟨pre, post, h⟩
      rcases List.append_eq_nil.1 h.symm with ⟨h1, h2⟩
      exact (List.append_eq_nil.1 h1).2
  | cons c t ih =>
    simp only [containsSeq, Bool.or_eq_true, beginsWith_iff, ih]
    constructor
    · rintro (⟨u, hu⟩ | ⟨pre, post, hpp⟩)
      · exact ⟨[], u, by simp [hu]⟩
      · exact ⟨c :: pre, post, by simp [hpp]⟩
    · rintro ⟨pre, post, hpp⟩
      cases pre with
      | nil => exact Or.inl ⟨post, by simpa using hpp⟩
      | cons p ps =>
        injection hpp with h1 h2
        exact Or.inr ⟨ps, post, by simp [h2]⟩

theorem strContains_iff (hay needle : String) :
    strContains hay needle = true ↔
      ∃ pre post, hay.data = pre ++ needle.data ++ post :=
  containsSeq_iff needle.data hay.data

theorem endsWithSeq_iff (suf l : List Char) :
    endsWithSeq suf l = true ↔ ∃ pre, l = pre ++ suf := by
  simp only [endsWithSeq, beginsWith_iff]
  constructor
  · rintro ⟨t, ht⟩
    refine ⟨t.reverse, ?_⟩
    have := congrArg List.reverse ht
    simpa using this
  · rintro ⟨pre, rfl⟩
    exact ⟨pre.reverse, by simp⟩

theorem afterLastDotChars_spec :
    ∀ l : List Char,
      ('.' ∉ l ∧ afterLastDotChars l = l) ∨
        ∃ pre, l = pre ++ '.' :: afterLastDotChars l ∧
          '.' ∉ afterLastDotChars l := by
  intro l
  induction l with
  | nil => exact Or.inl ⟨by simp, rfl⟩
  | cons c cs ih =>
    by_cases hmem : '.' ∈ cs
    · right
      rw [afterLastDotChars, if_pos hmem]
      rcases ih with ⟨hnot, _⟩ | ⟨pre, heq, hnot⟩
      · exact absurd hmem hnot
      · exact ⟨c :: pre, by rw [List.cons_append]; exact congrArg (c :: ·) heq, hnot⟩
    · by_cases hc : c = '.'
      · right
        rw [afterLastDotChars, if_neg hmem, if_pos hc]
        exact ⟨[], by simp [hc], hmem⟩
      · left
        rw [afterLastDotChars, if_neg hmem, if_neg hc]
        refine ⟨?_, rfl⟩
        intro hmem'
        rcases List.mem_cons.1 hmem' with h | h
        · exact hc h.symm
        · exact hmem h

theorem charListLe_total : ∀ a b : List Char, charListLe a b || charListLe b a := by
  intro a
  induction a with
  | nil => intro b; simp [charListLe]
  | cons x xs ih =>
    intro b
    cases b with
    | nil => simp [charListLe]
    | cons y ys =>
      simp only [charListLe]
      by_cases hxy : x = y
      · subst hxy
        simp only [if_pos rfl]
        exact ih ys
      · have hyx : ¬ y = x := fun h => hxy h.symm
        rw [if_neg hxy, if_neg hyx]
        rcases lt_or_gt_of_ne (show x ≠ y from hxy) with h | h
        · simp [h]
        · simp [h]

theorem charListLe_trans :
    ∀ a b c : List Char, charListLe a b → charListLe b c → charListLe a c := by
  intro a
  induction a with
  | nil => intro b c _ _; simp [charListLe]
  | cons x xs ih =>
    intro b c hab hbc
    cases b with
    | nil => simp [charListLe] at hab
    | cons y ys =>
      cases c with
      | nil => simp [charListLe] at hbc
      | cons z zs =>
        simp only [charListLe] at hab hbc ⊢
        by_cases hxy : x = y <;> by_cases hyz : y = z
        · subst hxy; subst hyz
          rw [if_pos rfl] at hab hbc ⊢
          exact ih ys zs hab hbc
        · subst hxy
          rw [if_pos rfl] at hab
          rw [if_neg hyz] at hbc ⊢
          exact hbc
        · subst hyz
          rw [if_pos rfl] at hbc
          rw [if_neg hxy] at hab ⊢
          exact hab
        · rw [if_neg hxy] at hab
          rw [if_neg hyz] at hbc
          have hx : x < y := of_decide_eq_true hab
          have hy : y < z := of_decide_eq_true hbc
          have hxz : x < z := lt_trans hx hy
          rw [if_neg (ne_of_lt hxz)]
          exact decide_eq_true hxz

theorem pathLe_trans (a b c : String) : pathLe a b → pathLe b c → pathLe a c :=
  charListLe_trans a.data b.data c.data

theorem pathLe_total (a b : String) : pathLe a b || pathLe b a :=
  charListLe_total a.data b.data

theorem insertSorted_perm (x : String) :
    ∀ l : List String, (insertSorted x l).Perm (x :: l) := by
  intro l
  induction l with
  | nil => simp [insertSorted]
  | cons y ys ih =>
    simp only [insertSorted]
    by_cases h : pathLe x y = true
    · rw [if_pos h]
    · rw [if_neg h]
      exact (ih.cons y).trans (List.Perm.swap x y ys)

theorem sortPaths_perm : ∀ l : List String, (sortPaths l).Perm l := by
  intro l
  induction l with
  | nil => simp [sortPaths]
  | cons x xs ih =>
    exact (insertSorted_perm x (sortPaths xs)).trans (ih.cons x)

theorem mem_insertSorted {x y : String} {l : List String} :
    y ∈ insertSorted x l ↔ y = x ∨ y ∈ l := by
  simpa using (insertSorted_perm x l).mem_iff (a := y)

theorem pairwise_insertSorted {x : String} {l : List String}
    (h : List.Pairwise (fun a b => pathLe a b = true) l) :
    List.Pairwise (fun a b => pathLe a b = true) (insertSorted x l) := by
  induction l with
  | nil => simp [insertSorted]
  | cons y ys ih =>
    rcases List.pairwise_cons.1 h with ⟨hy, hys⟩
    simp only [insertSorted]
    by_cases hxy : pathLe x y = true
    · rw [if_pos hxy]
      refine List.pairwise_cons.2 ⟨?_, h⟩
      intro z hz
      rcases List.mem_cons.1 hz with rfl | hz'
      · exact hxy
      · exact pathLe_trans x y z hxy (hy z hz')
    · rw [if_neg hxy]
      have hyx : pathLe y x = true := by
        rcases Bool.or_eq_true_iff.mp (pathLe_total x y) with h' | h'
        · exact absurd h' hxy
        · exact h'
      refine List.pairwise_cons.2 ⟨?_, ih hys⟩
      intro z hz
      rcases mem_insertSorted.1 hz with rfl | hz'
      · exact hyx
      · exact hy z hz'

theorem sortPaths_pairwise :
    ∀ l : List String, List.Pairwise (fun a b => pathLe a b = true) (sortPaths l) := by
  intro l
  induction l with
  | nil => simp [sortPaths]
  | cons x xs ih => exact pairwise_insertSorted ih

theorem flatten_length_of_forall_one {α : Type} {L : List (List α)}
    (h : ∀ r ∈ L, r.length = 1) : L.flatten.length = L.length := by
  induction L with
  | nil => rfl
  | cons r rs ih =>
    simp only [List.flatten_cons, List.length_append, List.length_cons]
    rw [h r (List.mem_cons_self r rs), ih fun x hx => h x (List.mem_cons_of_mem r hx)]
    omega

theorem zip_getElem_some {l : List α} {p : List β} :
    ∀ {i : Nat} {x : α} {y : β}, l[i]? = some x → p[i]? = some y →
      (l.zip p)[i]? = some (x, y) := by
  induction l generalizing p with
  | nil => intro i x y hx; simp at hx
  | cons a as ih =>
    intro i x y hx hy
    cases p with
    | nil => simp at hy
    | cons b bs =>
      cases i with
      | zero => simp at hx hy; simp [hx, hy]
      | succ j =>
        simp only [List.getElem?_cons_succ] at hx hy
        simpa using ih hx hy

theorem stopCond_iff (inp : PredictInput) :
    stopCond inp = true ↔
      inp.resultsFileExists = true ∧ pyLower (pyStrip inp.response) ≠ "y" := by
  simp [stopCond]

theorem finishBranch_fst_ne_stopped {env : Env} {inp : PredictInput} {ckpt : Checkpoint}
    {r0 : Routine} {preds? : Option (List Nat)} {msg : String} :
    (finishBranch env inp ckpt r0 preds? msg).1 ≠ .stopped := by
  cases preds? <;> simp [finishBranch]

theorem computeTags_finishBranch {env : Env} {inp : PredictInput} {ckpt : Checkpoint}
    {r0 : Routine} {preds? : Option (List Nat)} {msg : String} :
    computeTags (finishBranch env inp ckpt r0 preds? msg).2 = [r0] := by
  cases preds? <;> simp [finishBranch, computeTags]

theorem finishBranch_written {env : Env} {inp : PredictInput} {ckpt : Checkpoint}
    {r0 : Routine} {preds? : Option (List Nat)} {msg : String} {r : Results}
    {effs : List Effect}
    (h : finishBranch env inp ckpt r0 preds? msg = (.written r, effs)) :
    ∃ preds, preds? = some preds ∧
      r = exportResults inp ckpt (mkDataset env inp) preds := by
  cases preds? with
  | none => simp [finishBranch] at h
  | some preds =>
    simp only [finishBranch, Prod.mk.injEq, PredictResult.written.injEq] at h
    exact ⟨preds, rfl, h.1.symm⟩

theorem argmaxAxis1_npArrayOfRows_length {rows : List (List Int)} {preds : List Nat}
    (h : argmaxAxis1 (npArrayOfRows rows) = some preds) : preds.length = rows.length := by
  cases rows with
  | nil => simp [npArrayOfRows, argmaxAxis1] at h
  | cons r rs =>
    simp only [npArrayOfRows, argmaxAxis1] at h
    exact mapOrNone_length h

theorem argmaxAxis1_npConcatOrEmpty_length {mats : List (List (List Int))}
    {preds : List Nat} (h : argmaxAxis1 (npConcatOrEmpty mats) = some preds)
    (hone : ∀ m ∈ mats, m.length = 1) : preds.length = mats.length := by
  by_cases hm : mats.length > 0
  · simp only [npConcatOrEmpty, if_pos hm, argmaxAxis1] at h
    rw [mapOrNone_length h]
    exact flatten_length_of_forall_one hone
  · simp [npConcatOrEmpty, if_neg hm, argmaxAxis1] at h

/-! ## The claims -/

/-- **C1.**  Every run of `predict` that reaches the export step writes
a report whose `"predictions"` object maps, for every sample of the
loaded dataset, the string form of the sample's path to the label
obtained by translating the sample's predicted class through the
dataset's `y_to_label` map, and which records the checkpoint path under
`"checkpoint_path"` and the checkpoint's model class string under
`"model"`.  In the CNN branch the external model is assumed to return
one logit row per sample (its output has batch size one), which is what
lines 219-221 rely on to line the logit rows up with the samples. -/
theorem predict_report_maps_every_sample (env : Env) (inp : PredictInput)
    (ckpt : Checkpoint) (r : Results) (effs : List Effect)
    (hcnn : strContains ckpt.model_class "ManNet" = false →
      strContains ckpt.model_class "CNN" = true →
      ∀ s ∈ loadedData env inp, ((modelOf env ckpt).forwardImage s.image).length = 1)
    (hrun : predict env inp ckpt = (.written r, effs)) :
    r.checkpoint_path = inp.checkpointFile ∧ r.model = ckpt.model_class ∧
    ∃ preds : List Nat,
      preds.length = (loadedData env inp).length ∧
      r.predictions = ((loadedData env inp).zip preds).map
        (fun sp => (sp.1.path, env.yToLabel (loadedData env inp) sp.2)) ∧
      ∀ (i : Nat) (s : MorphologyData) (k : Nat),
        (loadedData env inp)[i]? = some s → preds[i]? = some k →
        r.predictions[i]? = some (s.path, env.yToLabel (loadedData env inp) k) := by
  have main : ∀ (r0 : Routine) (preds? : Option (List Nat)) (msg : String),
      finishBranch env inp ckpt r0 preds? msg = (.written r, effs) →
      (∀ preds, preds? = some preds → preds.length = (loadedData env inp).length) →
      r.checkpoint_path = inp.checkpointFile ∧ r.model = ckpt.model_class ∧
      ∃ preds : List Nat,
        preds.length = (loadedData env inp).length ∧
        r.predictions = ((loadedData env inp).zip preds).map
          (fun sp => (sp.1.path, env.yToLabel (loadedData env inp) sp.2)) ∧
        ∀ (i : Nat) (s : MorphologyData) (k : Nat),
          (loadedData env inp)[i]? = some s → preds[i]? = some k →
          r.predictions[i]? = some (s.path, env.yToLabel (loadedData env inp) k) := by
    intro r0 preds? msg h hlen
    obtain ⟨preds, hp, hr⟩ := finishBranch_written h
    subst hr
    refine ⟨rfl, rfl, preds, hlen preds hp, rfl, ?_⟩
    intro i s k hs hk
    have hz := zip_getElem_some hs hk
    simp only [exportResults, mkDataset, List.getElem?_map, hz, Option.map_some']
  simp only [predict] at hrun
  split at hrun
  · exact absurd hrun (by simp)
  split at hrun
  next hM =>
    refine main .gnn _ _ hrun ?_
    intro preds hp
    rw [predict_gnn] at hp
    rw [argmaxAxis1_npArrayOfRows_length hp]
    simp [mkDataset]
  split at hrun
  next hM hC =>
    refine main .cnn _ _ hrun ?_
    intro preds hp
    rw [predict_cnn] at hp
    have hone : ∀ m ∈ (mkDataset env inp).data.map
        (fun s => (modelOf env ckpt).forwardImage s.image), m.length = 1 := by
      intro m hm
      obtain ⟨s, hs, rfl⟩ := List.mem_map.1 hm
      exact hcnn (Bool.not_eq_true _ ▸ eq_false_of_ne_true hM) (by simpa using hC) s hs
    rw [argmaxAxis1_npConcatOrEmpty_length hp hone]
    simp [mkDataset]
  split at hrun
  next hX =>
    refine main .xgb _ _ hrun ?_
    intro preds hp
    rw [predict_xgb] at hp
    rw [mapOrNone_length hp]
    simp [mkDataset]
  · exact absurd hrun (by simp)

/-- Witness for the report theorem: the closed CNN run of `envW`,
`inpW`, `ckptCnnW`. -/
theorem predict_report_maps_every_sample_witness :
    rCnnW.checkpoint_path = inpW.checkpointFile ∧
    rCnnW.model = ckptCnnW.model_class ∧
    ∃ preds : List Nat,
      preds.length = (loadedData envW inpW).length ∧
      rCnnW.predictions = ((loadedData envW inpW).zip preds).map
        (fun sp => (sp.1.path, envW.yToLabel (loadedData envW inpW) sp.2)) ∧
      ∀ (i : Nat) (s : MorphologyData) (k : Nat),
        (loadedData envW inpW)[i]? = some s → preds[i]? = some k →
        rCnnW.predictions[i]? = some (s.path, envW.yToLabel (loadedData envW inpW) k) :=
  predict_report_maps_every_sample envW inpW ckptCnnW rCnnW effsCnnW
    (by decide) (by decide)

/-- **C2.**  For every checkpoint, `predict` dispatches to exactly one
of the three prediction routines, selected by substring tests on the
checkpoint's `model_class` string tried in the order `"ManNet"` (GNN),
`"CNN"` (CNN), `"XGB"` (gradient-boosted trees): the routine recorded
in the effect trace is exactly the one the spec-side table
`specRoutineFor` selects, the substring tests really are substring
occurrence, and each branch runs the corresponding routine. -/
theorem predict_dispatch (env : Env) (inp : PredictInput) (ckpt : Checkpoint)
    (hstop : stopCond inp = false) :
    computeTags (predict env inp ckpt).2 = (specRoutineFor ckpt.model_class).toList ∧
    (∀ needle : String, strContains ckpt.model_class needle = true ↔
      ∃ pre post, ckpt.model_class.data = pre ++ needle.data ++ post) ∧
    (strContains ckpt.model_class "ManNet" = true →
      predict env inp ckpt = finishBranch env inp ckpt .gnn
        (argmaxAxis1 (predict_gnn env (mkDataset env inp) ckpt)) axisErrorMsg) ∧
    (strContains ckpt.model_class "ManNet" = false →
      strContains ckpt.model_class "CNN" = true →
      predict env inp ckpt = finishBranch env inp ckpt .cnn
        (argmaxAxis1 (predict_cnn env (mkDataset env inp) ckpt)) axisErrorMsg) ∧
    (strContains ckpt.model_class "ManNet" = false →
      strContains ckpt.model_class "CNN" = false →
      strContains ckpt.model_class "XGB" = true →
      predict env inp ckpt = finishBranch env inp ckpt .xgb
        (predict_xgb env (mkDataset env inp) ckpt) xgbErrorMsg) := by
  have hs : ¬ (stopCond inp = true) := by simp [hstop]
  refine ⟨?_, fun needle => strContains_iff ckpt.model_class needle, ?_, ?_, ?_⟩
  · by_cases hM : strContains ckpt.model_class "ManNet" = true
    · rw [predict, if_neg hs, if_pos hM, specRoutineFor, if_pos hM]
      rw [computeTags_finishBranch]
      rfl
    · rw [predict, if_neg hs, if_neg hM, specRoutineFor, if_neg hM]
      by_cases hC : strContains ckpt.model_class "CNN" = true
      · rw [if_pos hC, if_pos hC, computeTags_finishBranch]
        rfl
      · rw [if_neg hC, if_neg hC]
        by_cases hX : strContains ckpt.model_class "XGB" = true
        · rw [if_pos hX, if_pos hX, computeTags_finishBranch]
          rfl
        · rw [if_neg hX, if_neg hX]
          rfl
  · intro hM
    rw [predict, if_neg hs, if_pos hM]
  · intro hM hC
    rw [predict, if_neg hs, if_neg (by simp [hM]), if_pos hC]
  · intro hM hC hX
    rw [predict, if_neg hs, if_neg (by simp [hM]), if_neg (by simp [hC]), if_pos hX]

/-- Witness for the dispatch theorem: a model class containing both
`"CNN"` and `"ManNet"` is sent to the GNN routine because `"ManNet"`
is tested first. -/
theorem predict_dispatch_witness :
    computeTags (predict envW inpW ckptMixedW).2 =
      (specRoutineFor ckptMixedW.model_class).toList :=
  (predict_dispatch envW inpW ckptMixedW (by decide)).1

/-- **C3.**  Every run of `predict` that proceeds past the overwrite
prompt loads exactly the files of the features directory matching the
glob `"*.features"` (an arbitrary stem followed by the `.features`
suffix), as full paths sorted in non-decreasing lexicographic order,
and every dataset handed to a prediction routine consists of exactly
these samples in this order. -/
theorem predict_loads_sorted_glob (env : Env) (inp : PredictInput) (ckpt : Checkpoint)
    (hstop : stopCond inp = false) :
    Effect.loadData (loadedData env inp) ∈ (predict env inp ckpt).2 ∧
    loadedData env inp = (sortedFeaturePaths inp).map env.load ∧
    (sortedFeaturePaths inp).Perm
      ((inp.dirEntries.filter matchesFeaturesGlob).map
        (fun n => inp.featuresDir ++ "/" ++ n)) ∧
    List.Pairwise (fun a b => pathLe a b = true) (sortedFeaturePaths inp) ∧
    (∀ n : String, matchesFeaturesGlob n = true ↔
      ∃ stem : List Char, n.data = stem ++ ".features".data) ∧
    ∀ (r0 : Routine) (d : List MorphologyData),
      Effect.compute r0 d ∈ (predict env inp ckpt).2 → d = loadedData env inp := by
  have hs : ¬ (stopCond inp = true) := by simp [hstop]
  have heff : ∀ (r0 : Routine) (preds? : Option (List Nat)) (msg : String),
      Effect.loadData (loadedData env inp) ∈
        (finishBranch env inp ckpt r0 preds? msg).2 ∧
      ∀ (r1 : Routine) (d : List MorphologyData),
        Effect.compute r1 d ∈ (finishBranch env inp ckpt r0 preds? msg).2 →
        d = loadedData env inp := by
    intro r0 preds? msg
    cases preds? with
    | none =>
      refine ⟨by simp [finishBranch], ?_⟩
      intro r1 d hd
      simp [finishBranch] at hd
      exact hd.2
    | some preds =>
      refine ⟨by simp [finishBranch], ?_⟩
      intro r1 d hd
      simp [finishBranch] at hd
      exact hd.2
  have hfacts : Effect.loadData (loadedData env inp) ∈ (predict env inp ckpt).2 ∧
      ∀ (r0 : Routine) (d : List MorphologyData),
        Effect.compute r0 d ∈ (predict env inp ckpt).2 → d = loadedData env inp := by
    rw [predict, if_neg hs]
    by_cases hM : strContains ckpt.model_class "ManNet" = true
    · rw [if_pos hM]; exact heff _ _ _
    · rw [if_neg hM]
      by_cases hC : strContains ckpt.model_class "CNN" = true
      · rw [if_pos hC]; exact heff _ _ _
      · rw [if_neg hC]
        by_cases hX : strContains ckpt.model_class "XGB" = true
        · rw [if_pos hX]; exact heff _ _ _
        · rw [if_neg hX]
          refine ⟨by simp, ?_⟩
          intro r0 d hd
          simp at hd
  refine ⟨hfacts.1, rfl, ?_, ?_, ?_, hfacts.2⟩
  · exact sortPaths_perm _
  · exact sortPaths_pairwise _
  · intro n
    simpa [matchesFeaturesGlob] using endsWithSeq_iff ".features".data n.data

/-- Witness for the loading theorem: the closed GNN run of `envW`,
`inpW`, `ckptGnnW` records the loading of the sorted globbed
samples. -/
theorem predict_loads_sorted_glob_witness :
    Effect.loadData (loadedData envW inpW) ∈ (predict envW inpW ckptGnnW).2 :=
  (predict_loads_sorted_glob envW inpW ckptGnnW (by decide)).1

/-- **C4.**  When the checkpoint's model class contains none of
`"ManNet"`, `"CNN"`, `"XGB"`, the run ends reporting the model as not
recognized, after loading the checkpoint and the data but without
writing any results file. -/
theorem predict_not_recognized (env : Env) (inp : PredictInput) (ckpt : Checkpoint)
    (hstop : stopCond inp = false)
    (hM : strContains ckpt.model_class "ManNet" = false)
    (hC : strContains ckpt.model_class "CNN" = false)
    (hX : strContains ckpt.model_class "XGB" = false) :
    predict env inp ckpt =
      (.notRecognized ckpt.model_class,
        [.loadCheckpoint, .loadData (loadedData env inp)]) ∧
    ∀ (p : String) (res : Results),
      Effect.writeResults p res ∉ (predict env inp ckpt).2 := by
  have h1 : predict env inp ckpt =
      (.notRecognized ckpt.model_class,
        [.loadCheckpoint, .loadData (loadedData env inp)]) := by
    rw [predict, if_neg (by simp [hstop]), if_neg (by simp [hM]),
      if_neg (by simp [hC]), if_neg (by simp [hX])]
  refine ⟨h1, ?_⟩
  intro p res
  rw [h1]
  simp

/-- Witness for the unrecognized-model theorem: a decision-tree
checkpoint is rejected without a write. -/
theorem predict_not_recognized_witness :
    predict envW inpW ckptOtherW =
      (.notRecognized ckptOtherW.model_class,
        [.loadCheckpoint, .loadData (loadedData envW inpW)]) :=
  (predict_not_recognized envW inpW ckptOtherW
    (by decide) (by decide) (by decide) (by decide)).1

/-- **C5, counterexample.**  With a features directory matching no
`*.features` file and a recognized CNN model class, the run does not
complete: `predictions = logits.argmax(axis=1)` is reached with
`logits = np.array([])`, a 1-D array, so numpy raises an axis error and
no results file is written (the effect trace ends at the compute step,
with no write effect).  This refutes the claim that every recognized
model class yields a report with an empty `"predictions"` object. -/
theorem empty_dataset_cnn_crashes :
    (predict envW inpEmptyW ckptCnnW).1 = PredictResult.runtimeError axisErrorMsg ∧
    (predict envW inpEmptyW ckptCnnW).2 =
      [Effect.loadCheckpoint, Effect.loadData [], Effect.compute Routine.cnn []] := by
  constructor
  · decide
  · decide

/-- **C5, amended.**  With a features directory matching no
`*.features` file, only the XGB branch completes and writes a report
with an empty `"predictions"` object; the ManNet and CNN branches reach
`argmax(axis=1)` on the 1-D array `np.array([])` and abort on the numpy
axis error, writing nothing. -/
theorem empty_dataset_only_xgb_completes (env : Env) (inp : PredictInput)
    (ckpt : Checkpoint) (hstop : stopCond inp = false)
    (hempty : inp.dirEntries.filter matchesFeaturesGlob = []) :
    (strContains ckpt.model_class "ManNet" = false →
      strContains ckpt.model_class "CNN" = false →
      strContains ckpt.model_class "XGB" = true →
      predict env inp ckpt =
        (.written
          { predictions := []
            checkpoint_path := inp.checkpointFile
            model := ckpt.model_class },
          [.loadCheckpoint, .loadData [], .compute .xgb [],
            .writeResults (resultsPath inp)
              { predictions := []
                checkpoint_path := inp.checkpointFile
                model := ckpt.model_class }])) ∧
    (strContains ckpt.model_class "ManNet" = true →
      predict env inp ckpt =
        (.runtimeError axisErrorMsg,
          [.loadCheckpoint, .loadData [], .compute .gnn []])) ∧
    (strContains ckpt.model_class "ManNet" = false →
      strContains ckpt.model_class "CNN" = true →
      predict env inp ckpt =
        (.runtimeError axisErrorMsg,
          [.loadCheckpoint, .loadData [], .compute .cnn []])) := by
  have hs : ¬ (stopCond inp = true) := by simp [hstop]
  have hdata : loadedData env inp = [] := by
    simp [loadedData, sortedFeaturePaths, hempty, sortPaths]
  refine ⟨?_, ?_, ?_⟩
  · intro hM hC hX
    rw [predict, if_neg hs, if_neg (by simp [hM]), if_neg (by simp [hC]), if_pos hX]
    rw [predict_xgb]
    simp [mkDataset, hdata, mapOrNone, finishBranch, exportResults]
  · intro hM
    rw [predict, if_neg hs, if_pos hM]
    rw [predict_gnn]
    simp [mkDataset, hdata, npArrayOfRows, argmaxAxis1, finishBranch]
  · intro hM hC
    rw [predict, if_neg hs, if_neg (by simp [hM]), if_pos hC]
    rw [predict_cnn]
    simp [mkDataset, hdata, npConcatOrEmpty, argmaxAxis1, finishBranch]

/-- Witness for the amended empty-dataset theorem: the closed XGB run
on the empty features directory writes the empty report. -/
theorem empty_dataset_only_xgb_completes_witness :
    predict envW inpEmptyW ckptXgbW =
      (.written
        { predictions := []
          checkpoint_path := inpEmptyW.checkpointFile
          model := ckptXgbW.model_class },
        [.loadCheckpoint, .loadData [], .compute .xgb [],
          .writeResults (resultsPath inpEmptyW)
            { predictions := []
              checkpoint_path := inpEmptyW.checkpointFile
              model := ckptXgbW.model_class }]) :=
  (empty_dataset_only_xgb_completes envW inpEmptyW ckptXgbW
    (by decide) (by decide)).1 (by decide) (by decide) (by decide)

/-- **C6.**  In the GNN and CNN routines the model applied to the
samples is reconstructed entirely from the checkpoint: it is
`mkModel` — standing for the attribute of `morphoclass.models` named by
the part of the checkpoint's `model_class` string after its last dot,
instantiated with the checkpoint's `model_params` and loaded with the
weights `checkpoint["all"]["model"]` — and `afterLastDot` really is the
part after the last dot: it contains no dot and either equals the whole
string (which then has no dot) or is preceded in it by a dot. -/
theorem model_reconstructed_from_checkpoint (env : Env)
    (dataset : MorphologyDataset) (ckpt : Checkpoint) :
    modelOf env ckpt =
      env.mkModel (afterLastDot ckpt.model_class) ckpt.model_params ckpt.all_model ∧
    predict_gnn env dataset ckpt =
      npArrayOfRows (dataset.data.map
        (env.mkModel (afterLastDot ckpt.model_class) ckpt.model_params
          ckpt.all_model).forward) ∧
    predict_cnn env dataset ckpt =
      npConcatOrEmpty (dataset.data.map fun s =>
        (env.mkModel (afterLastDot ckpt.model_class) ckpt.model_params
          ckpt.all_model).forwardImage s.image) ∧
    (('.' ∉ ckpt.model_class.data ∧ afterLastDot ckpt.model_class = ckpt.model_class) ∨
      ∃ pre : List Char,
        ckpt.model_class.data = pre ++ '.' :: (afterLastDot ckpt.model_class).data ∧
          '.' ∉ (afterLastDot ckpt.model_class).data) := by
  refine ⟨rfl, rfl, rfl, ?_⟩
  rcases afterLastDotChars_spec ckpt.model_class.data with ⟨h1, h2⟩ | ⟨pre, h1, h2⟩
  · exact Or.inl ⟨h1, congrArg String.mk h2⟩
  · exact Or.inr ⟨pre, h1, h2⟩

/-- Witness for the reconstruction theorem, on a concrete dotted model
class string. -/
theorem model_reconstructed_from_checkpoint_witness :
    modelOf envW ckptGnnW =
      envW.mkModel (afterLastDot ckptGnnW.model_class) ckptGnnW.model_params
        ckptGnnW.all_model :=
  (model_reconstructed_from_checkpoint envW dsBadW ckptGnnW).1

/-- **C7.**  `predict` returns at the overwrite prompt, with no
checkpoint load, data load, prediction or write, exactly when the
results file exists and the response, stripped of surrounding
whitespace and lowercased, differs from `"y"`. -/
theorem predict_overwrite_guard (env : Env) (inp : PredictInput) (ckpt : Checkpoint) :
    (predict env inp ckpt = (.stopped, []) ↔ stopCond inp = true) ∧
    (stopCond inp = true ↔
      inp.resultsFileExists = true ∧ pyLower (pyStrip inp.response) ≠ "y") := by
  refine ⟨⟨?_, ?_⟩, stopCond_iff inp⟩
  · intro h
    by_contra hs
    rw [predict, if_neg hs] at h
    by_cases hM : strContains ckpt.model_class "ManNet" = true
    · rw [if_pos hM] at h
      exact finishBranch_fst_ne_stopped (congrArg Prod.fst h)
    · rw [if_neg hM] at h
      by_cases hC : strContains ckpt.model_class "CNN" = true
      · rw [if_pos hC] at h
        exact finishBranch_fst_ne_stopped (congrArg Prod.fst h)
      · rw [if_neg hC] at h
        by_cases hX : strContains ckpt.model_class "XGB" = true
        · rw [if_pos hX] at h
          exact finishBranch_fst_ne_stopped (congrArg Prod.fst h)
        · rw [if_neg hX] at h
          simp at h
  · intro hs
    rw [predict, if_pos hs]

/-- Witness for the overwrite-guard theorem: with an existing results
file and the response `" No "`, the run stops with no effects. -/
theorem predict_overwrite_guard_witness :
    predict envW inpStopW ckptGnnW = (.stopped, []) :=
  (predict_overwrite_guard envW inpStopW ckptGnnW).1.2 (by decide)

/-- **C8.**  In the GNN and CNN branches the predicted class of each
sample is the index of the maximum entry along axis 1 of the logits
array (first index on ties), so there are as many predictions as logit
rows; the XGB branch hands the routine's predictions to the export step
unchanged, with no argmax. -/
theorem predictions_argmax_rows (env : Env) (inp : PredictInput) (ckpt : Checkpoint)
    (rows : List (List Int)) (preds : List Nat)
    (hrows : argmaxAxis1 (NpArr.twoD rows) = some preds) :
    (preds.length = rows.length ∧
      ∀ (i : Nat) (row : List Int) (k : Nat),
        rows[i]? = some row → preds[i]? = some k → FirstArgmaxAt row k) ∧
    (∀ ps : List Nat, stopCond inp = false →
      strContains ckpt.model_class "ManNet" = true →
      argmaxAxis1 (predict_gnn env (mkDataset env inp) ckpt) = some ps →
      predict env inp ckpt =
        (.written (exportResults inp ckpt (mkDataset env inp) ps),
          [.loadCheckpoint, .loadData (loadedData env inp),
            .compute .gnn (loadedData env inp),
            .writeResults (resultsPath inp)
              (exportResults inp ckpt (mkDataset env inp) ps)])) ∧
    (∀ ps : List Nat, stopCond inp = false →
      strContains ckpt.model_class "ManNet" = false →
      strContains ckpt.model_class "CNN" = true →
      argmaxAxis1 (predict_cnn env (mkDataset env inp) ckpt) = some ps →
      predict env inp ckpt =
        (.written (exportResults inp ckpt (mkDataset env inp) ps),
          [.loadCheckpoint, .loadData (loadedData env inp),
            .compute .cnn (loadedData env inp),
            .writeResults (resultsPath inp)
              (exportResults inp ckpt (mkDataset env inp) ps)])) ∧
    (∀ ps : List Nat, stopCond inp = false →
      strContains ckpt.model_class "ManNet" = false →
      strContains ckpt.model_class "CNN" = false →
      strContains ckpt.model_class "XGB" = true →
      predict_xgb env (mkDataset env inp) ckpt = some ps →
      predict env inp ckpt =
        (.written (exportResults inp ckpt (mkDataset env inp) ps),
          [.loadCheckpoint, .loadData (loadedData env inp),
            .compute .xgb (loadedData env inp),
            .writeResults (resultsPath inp)
              (exportResults inp ckpt (mkDataset env inp) ps)])) := by
  simp only [argmaxAxis1] at hrows
  refine ⟨⟨mapOrNone_length hrows, ?_⟩, ?_, ?_, ?_⟩
  · intro i row k hrow hk
    have := mapOrNone_getElem hrows i row hrow
    rw [hk] at this
    exact rowArgmax_spec this.symm
  · intro ps hstop hM hps
    rw [predict, if_neg (by simp [hstop]), if_pos hM, hps]
    rfl
  · intro ps hstop hM hC hps
    rw [predict, if_neg (by simp [hstop]), if_neg (by simp [hM]), if_pos hC, hps]
    rfl
  · intro ps hstop hM hC hX hps
    rw [predict, if_neg (by simp [hstop]), if_neg (by simp [hM]),
      if_neg (by simp [hC]), if_pos hX, hps]
    rfl

/-- Witness for the argmax theorem, on a concrete logits array. -/
theorem predictions_argmax_rows_witness :
    ([1, 0] : List Nat).length = ([[1, 5, 2], [7, 3, 0]] : List (List Int)).length :=
  (predictions_argmax_rows envW inpW ckptGnnW [[1, 5, 2], [7, 3, 0]] [1, 0]
    (by decide)).1.1

/-- **C9.**  `predict_xgb` requires every sample's image tensor to hold
exactly 10000 entries (the `reshape(1, 10000)` precondition); under
that precondition — and the XGBoost guarantee that `predict` on a
one-row matrix returns a non-empty prediction array — it returns one
prediction per sample, in dataset order, each the first entry of the
model's prediction for the reshaped image.  A sample whose image
cannot be reshaped aborts the routine. -/
theorem predict_xgb_reshape_spec (env : Env) (ds : MorphologyDataset)
    (ckpt : Checkpoint) :
    ((∀ s ∈ ds.data, s.image.length = 10000 ∧
        env.xgbModelPredict ckpt.all_model [s.image] ≠ []) →
      ∃ ps : List Nat, predict_xgb env ds ckpt = some ps ∧
        ps.length = ds.data.length ∧
        ∀ (i : Nat) (s : MorphologyData), ds.data[i]? = some s →
          ps[i]? = (env.xgbModelPredict ckpt.all_model [s.image]).head?) ∧
    ∀ s ∈ ds.data, s.image.length ≠ 10000 → predict_xgb env ds ckpt = none := by
  constructor
  · intro h
    have hsome : ∀ s ∈ ds.data,
        (((reshape1x10000 s.image).bind
          fun m => (env.xgbModelPredict ckpt.all_model m).head?)).isSome := by
      intro s hs
      obtain ⟨h10k, hne⟩ := h s hs
      rw [reshape1x10000, if_pos h10k, Option.some_bind]
      rw [Option.isSome_iff_ne_none]
      intro hnone
      exact hne (List.head?_eq_none_iff.mp hnone)
    obtain ⟨ps, hps⟩ := mapOrNone_isSome hsome
    refine ⟨ps, hps, mapOrNone_length hps, ?_⟩
    intro i s hs
    have hmem : s ∈ ds.data := by
      have := List.getElem?_eq_some_iff.mp hs
      obtain ⟨hlt, heq⟩ := this
      exact heq ▸ List.getElem_mem hlt
    have := mapOrNone_getElem hps i s hs
    rw [this, reshape1x10000, if_pos (h s hmem).1, Option.some_bind]
  · intro s hs hlen
    refine mapOrNone_eq_none hs ?_
    rw [reshape1x10000, if_neg hlen]
    rfl

/-- Witness for the reshape theorem: a sample with a 1-entry image
aborts `predict_xgb`. -/
theorem predict_xgb_reshape_spec_witness :
    predict_xgb envW dsBadW ckptXgbW = none :=
  (predict_xgb_reshape_spec envW dsBadW ckptXgbW).2
    { path := "p", image := [1] } (by decide) (by decide)

end Morphoclass
